import Mathlib

/-!
Shallow embedding of `packages/varlet-ui/src/utils/components.ts` (varlet),
together with theorems checking the natural-language specification of the
module against the code.

Modelling conventions:
  * JavaScript values that a validation rule may resolve to are modelled by
    the inductive `JSVal`; `String(res)` coercion is `jsString`.
  * A possibly-`null`/`undefined` JavaScript value of type `V` is `Option V`
    (`none` = nullish).
  * A promise is modelled by its settled outcome: `Except E A` (`.error` =
    rejection).  `Promise.all` over an already-ordered list of outcomes is
    `promiseAll`; it keeps the input order of the fulfilled values, which is
    exactly the guarantee `Promise.all` gives independently of the order in
    which the individual promises complete.  (Which rejection reason wins
    when several promises reject is a completion-order matter and is
    abstracted to the first one in list order.)
  * The mutable ref `errorMessage` of `useValidation` is threaded
    explicitly as `ValidationState`.
-/

/-- A JavaScript value that a validation rule can resolve to. -/
inductive JSVal where
  | bool (b : Bool)
  | str (s : String)
  | num (n : Int)
  | undef
  deriving DecidableEq, Repr

/-- JavaScript `String(res)` coercion on the modelled values. -/
def jsString : JSVal → String
  | .bool true => "true"
  | .bool false => "false"
  | .str s => s
  | .num n => toString n
  | .undef => "undefined"

/-- The state owned by `useValidation`: the reactive ref `errorMessage`. -/
structure ValidationState where
  errorMessage : String
  deriving DecidableEq, Repr

/-- A validation rule `(value, apis) => result`, where the result promise is
modelled by its settled outcome. -/
def Rule (V A E : Type) : Type := V → A → Except E JSVal

/-- Model of `Promise.all` on a list of settled outcomes: fulfilled values are kept in
input order; a rejection anywhere rejects the whole batch. -/
def promiseAll {E A : Type} : List (Except E A) → Except E (List A)
  | [] => .ok []
  | .error e :: _ => .error e
  | .ok a :: xs =>
    match promiseAll xs with
    | .error e => .error e
    | .ok rest => .ok (a :: rest)

/-- The `resArr.some((res) => { ... })` callback of `validate`: walks the
results in order, and on the FIRST result that is not exactly `true` writes
`String(res)` into `errorMessage` and stops (JavaScript `Array.prototype.some`
short-circuits).  Returns the boolean `some` result plus the updated state. -/
def someSetMsg : List JSVal → ValidationState → Bool × ValidationState
  | [], st => (false, st)
  | res :: rest, st =>
    if res != .bool true then (true, { st with errorMessage := jsString res })
    else someSetMsg rest st

/-- Model of `useValidation().validate(rules, value, apis)`.  `rules : Option (List _)`
models the JavaScript argument: `none` = not an array.  The result pairs the
settled outcome of the returned promise with the final `errorMessage` state
(on rejection the `some` walk is never reached, so the state is returned
unchanged). -/
def validate {V A E : Type} (rules : Option (List (Rule V A E))) (value : V)
    (apis : A) (st : ValidationState) : Except E Bool × ValidationState :=
  match rules with
  | none => (.ok true, st)
  | some rs =>
    if rs.isEmpty then (.ok true, st)
    else
      match promiseAll (rs.map (fun rule => rule value apis)) with
      | .error e => (.error e, st)
      | .ok resArr =>
        let p := someSetMsg resArr st
        (.ok !p.1, p.2)

/-- Model of `useValidation().resetValidation()`. -/
def resetValidation (st : ValidationState) : ValidationState :=
  { st with errorMessage := "" }

/-- Model of `useValidation().validateWithTrigger(validateTrigger, trigger, rules,
value, apis)`: a no-op unless `trigger ∈ validateTrigger`; otherwise awaits
`validate` (propagating a rejection) and clears `errorMessage` exactly when
it resolved `true`. -/
def validateWithTrigger {T V A E : Type} [DecidableEq T] (validateTrigger : List T)
    (trigger : T) (rules : Option (List (Rule V A E))) (value : V) (apis : A)
    (st : ValidationState) : Except E Unit × ValidationState :=
  if trigger ∈ validateTrigger then
    match validate rules value apis st with
    | (.error e, st') => (.error e, st')
    | (.ok b, st') => (.ok (), if b then { st' with errorMessage := "" } else st')
  else (.ok (), st)

/-! ### Helper lemmas about the validation runner -/

theorem someSetMsg_of_find_none (l : List JSVal) (st : ValidationState)
    (h : l.find? (fun r => r != .bool true) = none) :
    someSetMsg l st = (false, st) := by
  induction l with
  | nil => rfl
  | cons r rest ih =>
    by_cases hr : (r != JSVal.bool true) = true
    · rw [@List.find?_cons_of_pos JSVal (fun x => x != JSVal.bool true) r rest hr] at h
      cases h
    · rw [@List.find?_cons_of_neg JSVal (fun x => x != JSVal.bool true) r rest hr] at h
      simp only [someSetMsg, if_neg hr]
      exact ih h

theorem someSetMsg_of_find_some (l : List JSVal) (st : ValidationState) (r₀ : JSVal)
    (h : l.find? (fun r => r != .bool true) = some r₀) :
    someSetMsg l st = (true, { st with errorMessage := jsString r₀ }) := by
  induction l with
  | nil => simp [List.find?] at h
  | cons r rest ih =>
    by_cases hr : (r != JSVal.bool true) = true
    · rw [@List.find?_cons_of_pos JSVal (fun x => x != JSVal.bool true) r rest hr] at h
      cases h
      simp only [someSetMsg, if_pos hr]
    · rw [@List.find?_cons_of_neg JSVal (fun x => x != JSVal.bool true) r rest hr] at h
      simp only [someSetMsg, if_neg hr]
      exact ih h

theorem promiseAll_ok_of_all_ok {E A : Type} (l : List (Except E A)) (vs : List A)
    (h : l = vs.map Except.ok) : promiseAll l = .ok vs := by
  subst h
  induction vs with
  | nil => rfl
  | cons v rest ih => simp [promiseAll, ih]

theorem promiseAll_error_of_mem_error {E A : Type} (l : List (Except E A)) (e : E)
    (h : Except.error e ∈ l) : ∃ e', promiseAll l = .error e' := by
  induction l with
  | nil => simp at h
  | cons x xs ih =>
    match x with
    | .error e'' => exact ⟨e'', rfl⟩
    | .ok a =>
      have hx : Except.error e ∈ xs := by
        rcases List.mem_cons.mp h with h1 | h1
        · cases h1
        · exact h1
      obtain ⟨e', he'⟩ := ih hx
      exact ⟨e', by simp [promiseAll, he']⟩

/-!
### `useVModel` (binding adapter)

The Vue primitives are modelled as follows.  A `computed` with a custom
setter has no state of its own: its getter is a function of the props and
its setter only produces effects (modelled as a trace of calls).  A `ref`
plus the two `watch`es of the passive branch are modelled as an explicit
state (`VModelState`) with one step function per external event; a Vue
`watch` callback fires exactly when the watched value changes with respect
to `Object.is` (here: decidable equality), so a write of an identical value
fires nothing.
-/

/-- The JavaScript value found at `props[event]`: a single listener, an
array of listeners, or something nullish (`call` ignores the latter).
Listeners are identified abstractly by elements of `F`. -/
inductive ListenerVal (F : Type) where
  | fn (f : F)
  | arr (fs : List F)
  | nullish
  deriving DecidableEq, Repr

/-- One observable outbound effect of the adapter's write path. -/
inductive VModelCall (F V : Type) where
  | emitCall (event : String) (value : V)
  | listenerCall (f : F) (value : V)
  deriving DecidableEq, Repr

/-- Model of `call(fn, ...args)` from components.ts, restricted to one argument as
`useVModel` uses it: invokes the array elements in order, a single function
once, and nothing when `fn` is nullish.  The trace of invocations is
returned. -/
def call {F V : Type} (fn : ListenerVal F) (value : V) : List (VModelCall F V)
  := match fn with
  | .arr fs => fs.map (fun f => .listenerCall f value)
  | .fn f => [.listenerCall f value]
  | .nullish => []

/-- Model of `const event = eventName ?? `onUpdate:${key.toString()}`` (components.ts
line 265). -/
def resolveEventName (eventName : Option String) (key : String) : String :=
  eventName.getD ("onUpdate:" ++ key)

/-- Model of `const getValue = () => (props[key] != null ? props[key] : defaultValue)!`:
nullish values are `none`. -/
def getValue {V : Type} (propsVal defaultValue : Option V) : Option V :=
  match propsVal with
  | some v => some v
  | none => defaultValue

/-- The read path of the non-passive (`passive: false`) branch: the
`computed` getter returns `getValue()`. -/
def eagerGet {V : Type} (propsVal defaultValue : Option V) : Option V :=
  getValue propsVal defaultValue

/-- The write path of the non-passive branch: the `computed` setter runs
`emit ? emit(event, value) : call(props[event], value)` and touches no
local cell (the branch has none).  `emit` is identified abstractly: `some e`
means an `emit` function was supplied. -/
def eagerSet {E F V : Type} (emit : Option E) (event : String)
    (propsListeners : ListenerVal F) (value : V) :
    List (Sum (String × V) (VModelCall F V)) :=
  match emit with
  | some _ => [.inl (event, value)]
  | none => (call propsListeners value).map .inr

/-- State of the passive (`passive: true`, the default) branch: the current
`props[key]` and the `ref` cell `proxy`. -/
structure VModelState (V : Type) where
  propsVal : Option V
  proxy : Option V
  deriving DecidableEq, Repr

/-- Model of `const proxy = ref<P[K]>(getValue())`. -/
def initVModel {V : Type} (propsVal defaultValue : Option V) : VModelState V :=
  { propsVal := propsVal, proxy := getValue propsVal defaultValue }

/-- An external change of `props[key]` to `v`.  The first `watch` (on
`() => props[key]`) fires because the watched value changed and assigns
`proxy.value = getValue()`; the second `watch` (on `() => proxy.value`)
fires with the new proxy value exactly when that assignment changed the
proxy (a Vue ref set to an identical value triggers nothing).  Returns the
new state and the list of outbound notification payloads. -/
def externalSet {V : Type} [DecidableEq V] (defaultValue : Option V)
    (s : VModelState V) (v : Option V) : VModelState V × List (Option V) :=
  if v = s.propsVal then ({ s with propsVal := v }, [])
  else
    let newProxy := getValue v defaultValue
    if newProxy = s.proxy then ({ propsVal := v, proxy := newProxy }, [])
    else ({ propsVal := v, proxy := newProxy }, [newProxy])

/-- A local write `proxy.value = v`.  The second `watch` fires with `v`
exactly when `v` differs from the current proxy value. -/
def localWrite {V : Type} [DecidableEq V] (s : VModelState V) (v : Option V) :
    VModelState V × List (Option V) :=
  if v = s.proxy then ({ s with proxy := v }, [])
  else ({ s with proxy := v }, [v])

/-!
### `formatElevation`, `createNamespace().n` and `flatFragment`
-/

/-- The `number | boolean | string` elevation argument. -/
inductive ElevationVal where
  | b (b : Bool)
  | n (n : Int)
  | s (s : String)
  deriving DecidableEq, Repr

/-- JavaScript template-literal stringification of an elevation value. -/
def elevString : ElevationVal → String
  | .b true => "true"
  | .b false => "false"
  | .n i => toString i
  | .s str => str

/-- JavaScript truthiness of the optional `defaultLevel : number` (`none` =
`undefined`; `0` is falsy). -/
def truthyLevel : Option Int → Bool
  | none => false
  | some d => d != 0

/-- Model of `formatElevation(elevation, defaultLevel)` from components.ts:
`false ↦ null`; `true` is replaced by `defaultLevel` only when the latter
is truthy; the result is the `var-elevation--` class string. -/
def formatElevation (elevation : ElevationVal) (defaultLevel : Option Int) :
    Option String :=
  if elevation = .b false then none
  else
    let elevation :=
      if elevation = .b true && truthyLevel defaultLevel
      then ElevationVal.n (defaultLevel.getD 0)
      else elevation
    some ("var-elevation--" ++ elevString elevation)

/-- JavaScript `s.startsWith(p)`, modelled on the character list. -/
def jsStartsWith (s p : String) : Bool :=
  p.data.isPrefixOf s.data

/-- Model of `createNamespace(name).n(suffix)` (the `createBEM` closure).  `suffix`
is `Option String` with `none` = `undefined`; JavaScript `!suffix` is also
true for the empty string.  `suffix.replace('$', namespace)` replaces the
first occurrence of `'$'`, which under the guard `suffix[0] === '$'` is the
head character, so it equals `namespace ++ suffix.drop 1`. -/
def createBEM (name : String) (suffix : Option String) : String :=
  let ns := "var"
  let componentName := ns ++ "-" ++ name
  match suffix with
  | none => componentName
  | some s =>
    if s = "" then componentName
    else if s.front = '$' then ns ++ s.drop 1
    else if jsStartsWith s "--" then componentName ++ s
    else componentName ++ "__" ++ s

/-- The `type` of a vNode, as far as `flatFragment` inspects it. -/
inductive VNodeTy where
  | comment
  | fragment
  | element (tag : String)
  deriving DecidableEq, Repr

/-- A vNode: its `type` and its `children` (`some` = the children are an
array, `none` = anything that fails `isArray`). -/
inductive VNode where
  | mk (ty : VNodeTy) (children : Option (List VNode))

/-- Model of `flatFragment(vNodes)`: drops comment nodes, splices the children of a
fragment node whose children are an array, and keeps everything else, in
input order (the source's `forEach`/`push` loop). -/
def flatFragment : List VNode → List VNode
  | [] => []
  | .mk .comment _ :: rest => flatFragment rest
  | .mk .fragment (some cs) :: rest => cs ++ flatFragment rest
  | .mk .fragment none :: rest => .mk .fragment none :: flatFragment rest
  | .mk (.element t) c :: rest => .mk (.element t) c :: flatFragment rest

/-- Spec-side characterisation of `flatFragment` (from the spec's words):
the per-node expansion, flat-mapped over the list. -/
def expandNodeSpec : VNode → List VNode
  | .mk .comment _ => []
  | .mk .fragment (some cs) => cs
  | v => [v]

/-! ### Further shared lemmas -/

theorem someSetMsg_false_frame (l : List JSVal) (st : ValidationState)
    (h : (someSetMsg l st).1 = false) : (someSetMsg l st).2 = st := by
  induction l with
  | nil => rfl
  | cons r rest ih =>
    by_cases hr : (r != JSVal.bool true) = true
    · simp [someSetMsg, hr] at h
    · simp only [someSetMsg, if_neg hr] at h ⊢
      exact ih h

theorem validate_some_eq {V A E : Type} (rs : List (Rule V A E)) (value : V) (apis : A)
    (st : ValidationState) (resArr : List JSVal)
    (hne : rs ≠ [])
    (hAll : promiseAll (rs.map (fun rule => rule value apis)) = .ok resArr) :
    validate (some rs) value apis st
      = (.ok !(someSetMsg resArr st).1, (someSetMsg resArr st).2) := by
  have hempty : rs.isEmpty = false := by
    cases rs with
    | nil => exact absurd rfl hne
    | cons a as => rfl
  simp [validate, hempty, hAll]

theorem validate_false_of_first_fail {V A E : Type} (rs : List (Rule V A E)) (value : V)
    (apis : A) (st : ValidationState) (resArr : List JSVal) (r₀ : JSVal)
    (hres : rs.map (fun rule => rule value apis) = resArr.map Except.ok)
    (hfail : resArr.find? (fun r => r != .bool true) = some r₀) :
    validate (some rs) value apis st
      = (.ok false, { st with errorMessage := jsString r₀ }) := by
  have hArr : resArr ≠ [] := by
    intro hx
    subst hx
    simp [List.find?] at hfail
  have hne : rs ≠ [] := by
    intro hx
    subst hx
    cases resArr with
    | nil => exact hArr rfl
    | cons a as => simp at hres
  have hAll := promiseAll_ok_of_all_ok _ resArr hres
  rw [validate_some_eq rs value apis st resArr hne hAll,
      someSetMsg_of_find_some resArr st r₀ hfail]
  rfl

theorem validate_fst_true_frame {V A E : Type} (rules : Option (List (Rule V A E)))
    (value : V) (apis : A) (st : ValidationState)
    (h : (validate rules value apis st).1 = .ok true) :
    (validate rules value apis st).2 = st := by
  cases rules with
  | none => rfl
  | some rs =>
    cases hempty : rs.isEmpty with
    | true => simp [validate, hempty]
    | false =>
      have hne : rs ≠ [] := by
        intro hx
        subst hx
        simp at hempty
      cases hAll : promiseAll (rs.map (fun rule => rule value apis)) with
      | error e =>
        have hv : validate (some rs) value apis st = (.error e, st) := by
          simp [validate, hempty, hAll]
        rw [hv] at h
        simp at h
      | ok resArr =>
        rw [validate_some_eq rs value apis st resArr hne hAll] at h ⊢
        simp only at h
        have hb : (someSetMsg resArr st).1 = false := by
          cases hb' : (someSetMsg resArr st).1 with
          | false => rfl
          | true =>
            rw [hb'] at h
            simp at h
        exact someSetMsg_false_frame resArr st hb

/-! ### Claim theorems for the validation runner -/

/-- C1: for every rule list whose awaited results contain at least one
result that is not exactly `true`, `validate` resolves `false` and
`errorMessage` ends up as `String` of the first failing result in
rule-list order.  The hypothesis `hres` states that every rule's promise
fulfils, with `resArr` the fulfilled values in rule-list order — exactly
the order `Promise.all` guarantees independently of completion order —
and `hfail` picks out the first non-`true` entry of that list. -/
theorem validate_false_first_failing {V A E : Type} (rs : List (Rule V A E)) (value : V)
    (apis : A) (st : ValidationState) (resArr : List JSVal) (r₀ : JSVal)
    (hres : rs.map (fun rule => rule value apis) = resArr.map Except.ok)
    (hfail : resArr.find? (fun r => r != .bool true) = some r₀) :
    validate (some rs) value apis st
      = (.ok false, { st with errorMessage := jsString r₀ }) :=
  validate_false_of_first_fail rs value apis st resArr r₀ hres hfail

/-- Witness for C1: the spec's own scenario — rules `[async → true,
async → "too short"]` on any value resolve `false` with error message
`"too short"`, having overwritten the previous message `"old"`. -/
theorem validate_false_first_failing_witness :
    validate (some [(fun _ _ => Except.ok (JSVal.bool true) : Rule Int Unit String),
                    (fun _ _ => Except.ok (JSVal.str "too short"))]) 0 ()
        { errorMessage := "old" }
      = (.ok false, { errorMessage := "too short" }) :=
  validate_false_first_failing _ 0 () _ [JSVal.bool true, JSVal.str "too short"]
    (JSVal.str "too short") rfl rfl

/-- C3: whenever `validate` resolves `true` — rules not an array, rules
empty, or every awaited result exactly `true` — the `errorMessage` state is
returned unchanged: the success path never writes (or clears) it. -/
theorem validate_true_frame {V A E : Type} (rules : Option (List (Rule V A E)))
    (value : V) (apis : A) (st : ValidationState)
    (h : (validate rules value apis st).1 = .ok true) :
    (validate rules value apis st).2 = st :=
  validate_fst_true_frame rules value apis st h

/-- Witness for C3: a one-rule list that resolves `true` leaves the
pre-existing error message `"keep"` intact. -/
theorem validate_true_frame_witness :
    (validate (some [(fun _ _ => Except.ok (JSVal.bool true) : Rule Int Unit String)])
        0 () { errorMessage := "keep" }).2 = { errorMessage := "keep" } :=
  validate_true_frame (some [fun _ _ => Except.ok (JSVal.bool true)]) 0 ()
    { errorMessage := "keep" } rfl

/-- C4: `validateWithTrigger` (i) is a complete no-op returning the state
unchanged when `trigger ∉ validateTrigger` — the equation holds for every
`rules` argument, including rule lists that would reject, so no rule is ever
invoked; (ii) clears `errorMessage` to `""` exactly when `validate`
resolves `true`; (iii) on validation failure leaves `errorMessage` equal to
the first failing rule's stringified result. -/
theorem validateWithTrigger_spec {T V A E : Type} [DecidableEq T]
    (vt : List T) (tr : T) (rules : Option (List (Rule V A E))) (value : V)
    (apis : A) (st : ValidationState) :
    (tr ∉ vt → validateWithTrigger vt tr rules value apis st = (.ok (), st)) ∧
    (tr ∈ vt → ∀ st', validate rules value apis st = (.ok true, st') →
      validateWithTrigger vt tr rules value apis st
        = (.ok (), { errorMessage := "" })) ∧
    (tr ∈ vt → ∀ (rs : List (Rule V A E)) (resArr : List JSVal) (r₀ : JSVal),
      rules = some rs →
      rs.map (fun rule => rule value apis) = resArr.map Except.ok →
      resArr.find? (fun r => r != .bool true) = some r₀ →
      validateWithTrigger vt tr rules value apis st
        = (.ok (), { errorMessage := jsString r₀ })) := by
  refine ⟨fun hout => ?_, fun hin st' hv => ?_, fun hin rs resArr r₀ hrs hres hfail => ?_⟩
  · simp [validateWithTrigger, hout]
  · simp [validateWithTrigger, hin, hv]
  · subst hrs
    have hv := validate_false_of_first_fail rs value apis st resArr r₀ hres hfail
    simp [validateWithTrigger, hin, hv]

/-- Witness for C4, exercising all three conjuncts at concrete inputs:
a fired trigger outside the trigger set changes nothing even with a
rejecting rule; a member trigger with an all-`true` rule list clears the
message; a member trigger with a failing rule stores `"too short"`. -/
theorem validateWithTrigger_spec_witness :
    validateWithTrigger ["onBlur"] "onFocus"
        (some [(fun _ _ => Except.error "boom" : Rule Int Unit String)]) 0 ()
        { errorMessage := "old" } = (.ok (), { errorMessage := "old" }) ∧
    validateWithTrigger ["onBlur"] "onBlur"
        (some [(fun _ _ => Except.ok (JSVal.bool true) : Rule Int Unit String)]) 0 ()
        { errorMessage := "old" } = (.ok (), { errorMessage := "" }) ∧
    validateWithTrigger ["onBlur"] "onBlur"
        (some [(fun _ _ => Except.ok (JSVal.bool true) : Rule Int Unit String),
               (fun _ _ => Except.ok (JSVal.str "too short"))]) 0 ()
        { errorMessage := "old" } = (.ok (), { errorMessage := "too short" }) :=
  ⟨(validateWithTrigger_spec ["onBlur"] "onFocus" _ 0 () _).1 (by decide),
   (validateWithTrigger_spec ["onBlur"] "onBlur" _ 0 () _).2.1 (by decide)
     { errorMessage := "old" } rfl,
   (validateWithTrigger_spec ["onBlur"] "onBlur" _ 0 () _).2.2 (by decide)
     _ [JSVal.bool true, JSVal.str "too short"] (JSVal.str "too short") rfl rfl rfl⟩

/-- C7: a rule whose promise rejects makes the whole batch reject —
`validate` returns the rejection (there is no catch), `errorMessage` is not
mutated by the aborted run, and `validateWithTrigger` propagates the same
rejection, again without touching the state. -/
theorem validate_rejection_propagates {V A E : Type} (rs : List (Rule V A E))
    (value : V) (apis : A) (st : ValidationState) (r : Rule V A E) (e : E)
    (hmem : r ∈ rs) (herr : r value apis = .error e) :
    ∃ e', validate (some rs) value apis st = (.error e', st) ∧
      ∀ (T : Type) [DecidableEq T] (vt : List T) (tr : T), tr ∈ vt →
        validateWithTrigger vt tr (some rs) value apis st = (.error e', st) := by
  have hne : rs ≠ [] := by
    intro hx
    subst hx
    simp at hmem
  have hempty : rs.isEmpty = false := by
    cases rs with
    | nil => exact absurd rfl hne
    | cons a as => rfl
  have hmap : Except.error e ∈ rs.map (fun rule => rule value apis) := by
    rw [← herr]
    exact List.mem_map_of_mem _ hmem
  obtain ⟨e', he'⟩ := promiseAll_error_of_mem_error _ e hmap
  refine ⟨e', ?_, ?_⟩
  · simp [validate, hempty, he']
  · intro T _ vt tr hin
    have hv : validate (some rs) value apis st = (.error e', st) := by
      simp [validate, hempty, he']
    simp [validateWithTrigger, hin, hv]

/-- Witness for C7: a two-rule list whose second rule rejects with
`"boom"` makes both `validate` and a triggered `validateWithTrigger`
reject, leaving the message `"old"` in place. -/
theorem validate_rejection_propagates_witness :
    ∃ e', validate (some [(fun _ _ => Except.ok (JSVal.bool true) : Rule Int Unit String),
                          (fun _ _ => Except.error "boom")]) 0 ()
            { errorMessage := "old" } = (.error e', { errorMessage := "old" }) ∧
      ∀ (T : Type) [DecidableEq T] (vt : List T) (tr : T), tr ∈ vt →
        validateWithTrigger vt tr
            (some [(fun _ _ => Except.ok (JSVal.bool true) : Rule Int Unit String),
                   (fun _ _ => Except.error "boom")]) 0 ()
            { errorMessage := "old" } = (.error e', { errorMessage := "old" }) :=
  validate_rejection_propagates _ 0 () _ (fun _ _ => Except.error "boom") "boom"
    (by simp) rfl

/-! ### Claim theorems for the binding adapter -/

/-- C2 (counterexample): the claim says that without `options.eventName`
the change-event name is `"update:"` concatenated with the key; the code
(components.ts line 265) builds `onUpdate:${key}`, so at `key = "value"`
the produced name differs from the claimed one. -/
theorem resolveEventName_counterexample :
    resolveEventName none "value" ≠ "update:" ++ "value" := by decide

/-- C2 (amended): when `options.eventName` is not supplied, the change-event
name used for outbound notification — the single `event` constant shared by
the eager and the buffered write paths — is `"onUpdate:"` concatenated with
the key. -/
theorem resolveEventName_default (key : String) :
    resolveEventName none key = "onUpdate:" ++ key := rfl

/-- C5: in eager (`passive: false`) mode, writing `v` with a supplied
`emit` produces exactly the one call `(event, v)` (whatever sits at
`props[event]`); without `emit` it invokes each function found at
`props[event]` with `v` — one call for a single function, one call per
element in order for an array, none for a nullish value.  The eager branch
allocates no local cell (its write path is pure effect, as the type of
`eagerSet` shows), and reading yields `props[key]` when non-nullish, else
`defaultValue`. -/
theorem useVModel_eager_spec {E F V : Type} (e : E) (event : String)
    (listeners : ListenerVal F) (f : F) (fs : List F) (v : V)
    (propsVal defaultValue : Option V) :
    (eagerSet (some e) event listeners v = [Sum.inl (event, v)]) ∧
    (eagerSet (none : Option E) event (ListenerVal.fn f) v
      = [Sum.inr (VModelCall.listenerCall f v)]) ∧
    (eagerSet (none : Option E) event (ListenerVal.arr fs) v
      = fs.map (fun g => Sum.inr (VModelCall.listenerCall g v))) ∧
    (eagerSet (none : Option E) event (ListenerVal.nullish : ListenerVal F) v
      = []) ∧
    (propsVal ≠ none → eagerGet propsVal defaultValue = propsVal) ∧
    (propsVal = none → eagerGet propsVal defaultValue = defaultValue) := by
  refine ⟨rfl, rfl, ?_, rfl, fun h => ?_, fun h => ?_⟩
  · simp [eagerSet, call, List.map_map, Function.comp]
  · cases propsVal with
    | none => exact absurd rfl h
    | some w => rfl
  · subst h
    rfl

/-- Witness for C5: an eager write with an emitter produces the single
emit call; the getter prefers the non-nullish prop value and falls back to
the default. -/
theorem useVModel_eager_spec_witness :
    eagerSet (some ()) "onUpdate:count" (ListenerVal.nullish : ListenerVal String)
        (5 : Int) = [Sum.inl ("onUpdate:count", (5 : Int))] ∧
    eagerGet (some (3 : Int)) (some 7) = some 3 ∧
    eagerGet (none : Option Int) (some 7) = some 7 :=
  ⟨(useVModel_eager_spec () "onUpdate:count" ListenerVal.nullish "g" [] (5 : Int)
      (some 3) (some 7)).1,
   (useVModel_eager_spec () "onUpdate:count" (ListenerVal.nullish : ListenerVal String)
      "g" [] (5 : Int) (some 3) (some 7)).2.2.2.2.1 (by decide),
   (useVModel_eager_spec () "onUpdate:count" (ListenerVal.nullish : ListenerVal String)
      "g" [] (5 : Int) none (some 7)).2.2.2.2.2 rfl⟩

/-- C6 (counterexample): the claim says every external change of
`props[key]` to `v` makes the proxy `v` and emits exactly one outbound
notification carrying `v`.  But both `watch`es fire only when the watched
value actually changes, so from the reachable state `props = 1`,
`proxy = 2` (obtained from `initVModel (some 1)` by the local write `2`,
which emitted its one notification), a genuine external change of `props`
from `1` to `2` writes the proxy with the value it already holds and emits
nothing — not one notification carrying `2`. -/
theorem useVModel_passive_counterexample :
    localWrite (initVModel (some (1 : Int)) none) (some 2)
      = ({ propsVal := some 1, proxy := some 2 }, [some 2]) ∧
    (externalSet none { propsVal := some (1 : Int), proxy := some 2 } (some 2)).2
      ≠ [some 2] := by
  decide

/-- C6 (amended): with `passive: true`, an external change of `props[key]`
to `v` sets the proxy to the resolved value `getValue v defaultValue`
(which is `v` itself whenever `v` is non-nullish) and emits exactly one
notification carrying that resolved value if it differs from the current
proxy value, and none otherwise; a local write of `v₂` emits exactly one
notification carrying `v₂` if `v₂` differs from the current proxy value,
and none otherwise. -/
theorem useVModel_passive_step_spec {V : Type} [DecidableEq V] (dv : Option V)
    (s : VModelState V) (v v₂ : Option V) (hchange : v ≠ s.propsVal) :
    ((externalSet dv s v).1.propsVal = v ∧
     (externalSet dv s v).1.proxy = getValue v dv ∧
     (externalSet dv s v).2
       = (if getValue v dv = s.proxy then [] else [getValue v dv])) ∧
    ((localWrite s v₂).1.proxy = v₂ ∧
     (localWrite s v₂).2 = (if v₂ = s.proxy then [] else [v₂])) := by
  constructor
  · by_cases hp : getValue v dv = s.proxy
    · simp [externalSet, if_neg hchange, hp]
    · simp [externalSet, if_neg hchange, hp]
  · by_cases hp : v₂ = s.proxy
    · simp [localWrite, hp]
    · simp [localWrite, hp]

/-- Witness for C6 (amended): from the in-sync state `props = proxy = 1`,
an external change to `5` syncs the proxy and emits the one notification
`5`; a subsequent local write of `9` emits the one notification `9`. -/
theorem useVModel_passive_step_spec_witness :
    (externalSet none { propsVal := some (1 : Int), proxy := some 1 } (some 5)).1.propsVal
      = some 5 ∧
    (externalSet none { propsVal := some (1 : Int), proxy := some 1 } (some 5)).1.proxy
      = some 5 ∧
    (externalSet none { propsVal := some (1 : Int), proxy := some 1 } (some 5)).2
      = [some 5] ∧
    (localWrite { propsVal := some (5 : Int), proxy := some 5 } (some 9)).1.proxy
      = some 9 ∧
    (localWrite { propsVal := some (5 : Int), proxy := some 5 } (some 9)).2
      = [some 9] := by
  have h1 := useVModel_passive_step_spec (none : Option Int)
    { propsVal := some 1, proxy := some 1 } (some 5) (some 5) (by decide)
  have h2 := useVModel_passive_step_spec (none : Option Int)
    { propsVal := some 5, proxy := some 5 } (some 9) (some 9) (by decide)
  refine ⟨h1.1.1, ?_, ?_, h2.2.1, ?_⟩
  · simpa using h1.1.2.1
  · simpa using h1.1.2.2
  · simpa using h2.2.2

/-! ### Claim theorems for the remaining helpers -/

/-- C8: `formatElevation` returns `null` exactly for the boolean `false`;
the boolean `true` with no `defaultLevel` (or with `defaultLevel = 0`,
which is falsy) is not substituted and yields the literal
`"var-elevation--true"`; any other elevation yields `"var-elevation--"`
followed by the (possibly substituted) elevation value. -/
theorem formatElevation_spec (e : ElevationVal) (dl : Option Int) :
    (formatElevation e dl = none ↔ e = .b false) ∧
    (formatElevation (.b true) none = some "var-elevation--true") ∧
    (formatElevation (.b true) (some 0) = some "var-elevation--true") ∧
    (e ≠ .b false →
      formatElevation e dl
        = some ("var-elevation--"
            ++ elevString (if e = .b true && truthyLevel dl
                           then ElevationVal.n (dl.getD 0) else e))) := by
  refine ⟨⟨fun h => ?_, fun h => ?_⟩, by decide, by decide, fun hne => ?_⟩
  · by_cases hb : e = ElevationVal.b false
    · exact hb
    · simp [formatElevation, hb] at h
  · subst h
    simp [formatElevation]
  · simp [formatElevation, hne]

/-- Witness for C8: a numeric elevation `3` produces the class string
`"var-elevation--3"`; the boolean `false` produces `null` even with a
`defaultLevel` present. -/
theorem formatElevation_spec_witness :
    formatElevation (.n 3) none = some "var-elevation--3" ∧
    formatElevation (.b false) (some 5) = none := by
  constructor
  · have h := (formatElevation_spec (.n 3) none).2.2.2 (by decide)
    simpa using h
  · exact (formatElevation_spec (.b false) (some 5)).1.mpr rfl

/-- Spec-side characterisation of `flatFragment`: each node expanded by
`expandNodeSpec` and the results concatenated in order. -/
def flatFragmentSpec (vNodes : List VNode) : List VNode :=
  vNodes.flatMap expandNodeSpec

/-- C9: `flatFragment` equals the order-preserving flat-map that omits
comment nodes, splices the children of a fragment node whose children are
an array, and keeps every other node.  Because the spliced children are
inserted verbatim — `expandNodeSpec` is never applied to them — the
flattening is one level only: a comment or fragment inside a fragment's
children is kept as-is. -/
theorem flatFragment_eq_spec (vNodes : List VNode) :
    flatFragment vNodes = flatFragmentSpec vNodes := by
  induction vNodes with
  | nil => rfl
  | cons v rest ih =>
    cases v with
    | mk ty children =>
      cases ty with
      | comment =>
        simpa [flatFragment, flatFragmentSpec, expandNodeSpec] using ih
      | fragment =>
        cases children with
        | none => simp [flatFragment, flatFragmentSpec, expandNodeSpec, ih]
        | some cs => simp [flatFragment, flatFragmentSpec, expandNodeSpec, ih]
      | element tag =>
        simp [flatFragment, flatFragmentSpec, expandNodeSpec, ih]

theorem data_append_var (t : String) :
    ("var" ++ t).data = 'v' :: 'a' :: 'r' :: t.data := by
  rw [String.data_append]
  rfl

theorem data_block_name (name : String) :
    ("var" ++ "-" ++ name).data = 'v' :: 'a' :: 'r' :: '-' :: name.data := by
  rw [String.data_append, String.data_append]
  rfl

/-- C10: every class string produced by `createNamespace(name).n` begins
with the namespace `"var"` (stated on the character data), and the suffix
shapes produce exactly the documented strings: no suffix or the empty
suffix gives the block `var-<name>`; a suffix headed by `'$'` has that head
replaced by `var`; a `--`-headed suffix appends the modifier to the block;
any other suffix is attached as an element with `__`. -/
theorem createBEM_spec (name : String) (suffix : Option String) :
    (∃ r, (createBEM name suffix).data = 'v' :: 'a' :: 'r' :: r) ∧
    (createBEM name none = "var" ++ "-" ++ name) ∧
    (createBEM name (some "") = "var" ++ "-" ++ name) ∧
    (∀ s : String, s ≠ "" → s.front = '$' →
      createBEM name (some s) = "var" ++ s.drop 1) ∧
    (∀ s : String, s ≠ "" → s.front ≠ '$' → jsStartsWith s "--" = true →
      createBEM name (some s) = "var" ++ "-" ++ name ++ s) ∧
    (∀ s : String, s ≠ "" → s.front ≠ '$' → jsStartsWith s "--" = false →
      createBEM name (some s) = "var" ++ "-" ++ name ++ "__" ++ s) := by
  have h2 : createBEM name none = "var" ++ "-" ++ name := rfl
  have h3 : createBEM name (some "") = "var" ++ "-" ++ name := rfl
  have h4 : ∀ s : String, s ≠ "" → s.front = '$' →
      createBEM name (some s) = "var" ++ s.drop 1 := by
    intro s hs hf
    simp [createBEM, hs, hf]
  have h5 : ∀ s : String, s ≠ "" → s.front ≠ '$' → jsStartsWith s "--" = true →
      createBEM name (some s) = "var" ++ "-" ++ name ++ s := by
    intro s hs hf hst
    simp [createBEM, hs, hf, hst]
  have h6 : ∀ s : String, s ≠ "" → s.front ≠ '$' → jsStartsWith s "--" = false →
      createBEM name (some s) = "var" ++ "-" ++ name ++ "__" ++ s := by
    intro s hs hf hst
    simp [createBEM, hs, hf, hst]
  refine ⟨?_, h2, h3, h4, h5, h6⟩
  cases suffix with
  | none => exact ⟨'-' :: name.data, by rw [h2]; exact data_block_name name⟩
  | some s =>
    by_cases hs : s = ""
    · subst hs
      exact ⟨'-' :: name.data, by rw [h3]; exact data_block_name name⟩
    · by_cases hf : s.front = '$'
      · exact ⟨(s.drop 1).data, by rw [h4 s hs hf]; exact data_append_var _⟩
      · cases hst : jsStartsWith s "--" with
        | true =>
          refine ⟨'-' :: (name.data ++ s.data), ?_⟩
          rw [h5 s hs hf hst, String.data_append, data_block_name]
          rfl
        | false =>
          refine ⟨'-' :: (name.data ++ "__".data ++ s.data), ?_⟩
          rw [h6 s hs hf hst, String.data_append, String.data_append,
              data_block_name]
          rfl

/-- Witness for C10, exercising each suffix shape of `createBEM` at
concrete inputs for the component name `"button"`. -/
theorem createBEM_spec_witness :
    createBEM "button" none = "var-button" ∧
    createBEM "button" (some "$--box-shadow") = "var--box-shadow" ∧
    createBEM "button" (some "--disabled") = "var-button--disabled" ∧
    createBEM "button" (some "content") = "var-button__content" := by
  refine ⟨?_, ?_, ?_, ?_⟩
  · rw [(createBEM_spec "button" none).2.1]
    decide
  · rw [(createBEM_spec "button" (some "$--box-shadow")).2.2.2.1 "$--box-shadow"
          (by decide) (by decide)]
    decide
  · rw [(createBEM_spec "button" (some "--disabled")).2.2.2.2.1 "--disabled"
          (by decide) (by decide) (by decide)]
    decide
  · rw [(createBEM_spec "button" (some "content")).2.2.2.2.2 "content"
          (by decide) (by decide) (by decide)]
    decide
